import Mathlib

/-!
Verification of the extrabol reconstruction pipeline (extrabol/extrabol.py).

The development shallowly embeds the pipeline stages the specification talks
about: the photometry normalizer (read_in_photometry), the template fitter's
chi-square aggregation and candidate selection (fit_template), the Gaussian
process dense-grid construction (interpolate), the per-epoch blackbody fit
dispatch (fit_bb), the bolometric luminosity formulas (main), and the output
table assembly (write_output).

Conventions of the embedding:
  - machine floats are modelled as rationals wherever the underlying code is
    exact arithmetic, and as real numbers where logarithms, pi or square
    roots appear;
  - numpy NaN sentinels are modelled with Option (none = NaN);
  - external numerical optimizers (scipy curve_fit, scipy minimize, the
    george GP predict call, the template spline) are modelled as oracle
    function parameters: the claims under study concern the surrounding
    data flow, not the optimizers' internals.
-/

/-! ## List helpers (numpy min / mean / argmin semantics) -/

/-- Minimum of a list of rationals, 0 on the empty list
(np.min raises on empty input; theorems carry nonemptiness where needed). -/
def listMin : List ℚ → ℚ
  | [] => 0
  | h :: t => t.foldl min h

/-- Arithmetic mean of a list of rationals (np.mean). -/
def listMean (l : List ℚ) : ℚ := l.sum / (l.length : ℚ)

theorem foldl_min_le_init (t : List ℚ) (h : ℚ) : t.foldl min h ≤ h := by
  induction t generalizing h with
  | nil => simp
  | cons a t ih =>
      simp only [List.foldl_cons]
      exact le_trans (ih (min h a)) (min_le_left h a)

theorem foldl_min_le_mem (t : List ℚ) (h x : ℚ) (hx : x ∈ t) :
    t.foldl min h ≤ x := by
  induction t generalizing h with
  | nil => cases hx
  | cons a t ih =>
      simp only [List.foldl_cons]
      rcases List.mem_cons.mp hx with rfl | hx'
      · exact le_trans (foldl_min_le_init t (min h x)) (min_le_right h x)
      · exact ih (min h a) hx'

theorem foldl_min_mem (t : List ℚ) (h : ℚ) :
    t.foldl min h = h ∨ t.foldl min h ∈ t := by
  induction t generalizing h with
  | nil => left; rfl
  | cons a t ih =>
      simp only [List.foldl_cons]
      rcases ih (min h a) with heq | hmem
      · rw [heq]
        rcases le_total h a with hha | hah
        · left; exact min_eq_left hha
        · right; rw [min_eq_right hah]; exact List.mem_cons_self a t
      · right; exact List.mem_cons_of_mem a hmem

theorem le_foldl_min (t : List ℚ) (h c : ℚ) (hc : c ≤ h)
    (hall : ∀ x ∈ t, c ≤ x) : c ≤ t.foldl min h := by
  induction t generalizing h with
  | nil => exact hc
  | cons a t ih =>
      simp only [List.foldl_cons]
      exact ih (min h a) (le_min hc (hall a (List.mem_cons_self a t)))
        (fun x hx => hall x (List.mem_cons_of_mem a hx))

theorem listMin_le_mem (l : List ℚ) (x : ℚ) (hx : x ∈ l) : listMin l ≤ x := by
  cases l with
  | nil => cases hx
  | cons h t =>
      rcases List.mem_cons.mp hx with rfl | hx'
      · exact foldl_min_le_init t x
      · exact foldl_min_le_mem t h x hx'

theorem listMin_mem (l : List ℚ) (hne : l ≠ []) : listMin l ∈ l := by
  cases l with
  | nil => exact absurd rfl hne
  | cons h t =>
      rcases foldl_min_mem t h with heq | hmem
      · rw [listMin, heq]; exact List.mem_cons_self h t
      · exact List.mem_cons_of_mem h hmem

theorem le_listMin (l : List ℚ) (c : ℚ) (hne : l ≠ [])
    (hall : ∀ x ∈ l, c ≤ x) : c ≤ listMin l := by
  cases l with
  | nil => exact absurd rfl hne
  | cons h t =>
      exact le_foldl_min t h c (hall h (List.mem_cons_self h t))
        (fun x hx => hall x (List.mem_cons_of_mem h hx))

/-! ## Photometry Normalizer (read_in_photometry, lines 110-167)

An input row carries the quantities read_in_photometry has in hand once the
filter metadata is resolved and the magnitude is converted to log-flux
(lines 91-123): phase, log-flux, raw effective wavelength in Angstroms,
uncertainty, filter width and the filter identifier. The log-flux conversion
itself (line 122) is embedded separately over the reals for claim C5. -/

structure PhotRow where
  phase : ℚ
  flux : ℚ
  wv : ℚ
  err : ℚ
  width : ℚ
  filt : String
deriving DecidableEq

/-- One normalized observation as produced at line 165
(phases, fluxes, wv_effs/1000, errs, width_effs). -/
structure Obs where
  time : ℚ
  flux : ℚ
  wv : ℚ
  err : ℚ
  width : ℚ
  filt : String
deriving DecidableEq

/-- Lines 127-128: wv_corr = np.mean(wv_effs/(1+redshift));
flux_corr = np.min(fluxes) - 1.0.  Both are computed over every input row,
before any filtering. -/
def normContext (redshift : ℚ) (rows : List PhotRow) : ℚ × ℚ :=
  (listMean (rows.map fun r => r.wv / (1 + redshift)),
   listMin (rows.map fun r => r.flux) - 1)

/-- Lines 129-130: wv_effs = wv_effs - wv_corr; fluxes = fluxes - flux_corr.
Note the raw wavelengths (not the redshift-deflated ones) get the mean
subtracted. -/
def applyContext (wv_corr flux_corr : ℚ) (rows : List PhotRow) : List PhotRow :=
  rows.map fun r => { r with wv := r.wv - wv_corr, flux := r.flux - flux_corr }

/-- Lines 132-146: keep the rows with 1/err at or above the snr threshold. -/
def snrFilter (snr : ℚ) (rows : List PhotRow) : List PhotRow :=
  rows.filter fun r => snr ≤ 1 / r.err

/-- Line 149: phases = phases - np.min(phases), over the snr survivors. -/
def rebase (rows : List PhotRow) : List PhotRow :=
  let m := listMin (rows.map fun r => r.phase)
  rows.map fun r => { r with phase := r.phase - m }

/-- Lines 152-163: keep the rows with start <= phase <= end, applied after
the rebase. -/
def windowFilter (tStart tEnd : ℚ) (rows : List PhotRow) : List PhotRow :=
  rows.filter fun r => r.phase ≤ tEnd ∧ tStart ≤ r.phase

/-- Lines 110-167 of read_in_photometry from the point where per-row
log-fluxes exist: compute the normalization context over all rows, subtract
it, filter by snr, rebase time, filter by window, and emit the light curve
with wavelengths scaled to kilo-Angstroms (line 165). -/
def read_in_photometry (redshift tStart tEnd snr : ℚ) (rows : List PhotRow) :
    List Obs × ℚ × ℚ :=
  let ctx := normContext redshift rows
  let rows1 := applyContext ctx.1 ctx.2 rows
  let rows2 := snrFilter snr rows1
  let rows3 := rebase rows2
  let rows4 := windowFilter tStart tEnd rows3
  (rows4.map fun r => ⟨r.phase, r.flux, r.wv / 1000, r.err, r.width, r.filt⟩,
   ctx)

/-! ## Claim C3: time rebasing and filter order -/

/-- Two rows passing the snr cut, used to exercise a window whose start bound
is positive. -/
def c3rows : List PhotRow :=
  [⟨10, 0, 0, 1/10, 0, "g"⟩, ⟨15, 0, 0, 1/10, 0, "g"⟩]

/-- C3 (counterexample): with a window start bound of 1 (exceeding 0), the
surviving output is nonempty yet its minimum time is not 0 — the window
filter, applied after rebasing, removes the zero-time anchor. -/
theorem C3_min_time_counterexample :
    ((read_in_photometry 0 1 200 4 c3rows).1).length ≠ 0 ∧
      listMin (((read_in_photometry 0 1 200 4 c3rows).1).map Obs.time) ≠ 0 := by
  norm_num [read_in_photometry, normContext, applyContext, snrFilter, rebase,
    windowFilter, listMin, listMean, c3rows, List.filter, List.foldl]

theorem windowFilter_mem (tStart tEnd : ℚ) (l : List PhotRow) (x : PhotRow) :
    x ∈ windowFilter tStart tEnd l ↔
      x ∈ l ∧ x.phase ≤ tEnd ∧ tStart ≤ x.phase := by
  simp [windowFilter, List.mem_filter]

theorem rebase_phase_nonneg (l : List PhotRow) (x : PhotRow)
    (hx : x ∈ rebase l) : 0 ≤ x.phase := by
  simp only [rebase, List.mem_map] at hx
  obtain ⟨r, hr, rfl⟩ := hx
  have hm : listMin (l.map fun r => r.phase) ≤ r.phase :=
    listMin_le_mem _ _ (List.mem_map_of_mem _ hr)
  simp only
  linarith

theorem rebase_zero_mem (l : List PhotRow) (hne : l ≠ []) :
    ∃ x ∈ rebase l, x.phase = 0 := by
  have hmap : (l.map fun r => r.phase) ≠ [] := by
    simpa using hne
  obtain ⟨r, hr, hrp⟩ := List.mem_map.mp (listMin_mem _ hmap)
  refine ⟨{ r with phase := r.phase - listMin (l.map fun r => r.phase) }, ?_, ?_⟩
  · exact List.mem_map_of_mem _ hr
  · simp [hrp]

/-- C3 (amended): the snr filter runs first, the rebase anchors time zero at
the earliest snr-surviving point, and the window filter runs after the
rebase; hence every output time is nonnegative, and whenever the window
contains 0 (tStart at most 0, tEnd at least 0) and some row survives the snr
cut, the output is nonempty with minimum time exactly 0.  (When the window
start bound exceeds 0 the anchor is discarded and the minimum output time,
if any, is at least the start bound, not 0.) -/
theorem C3_time_rebase (redshift tStart tEnd snr : ℚ) (rows : List PhotRow)
    (hne : snrFilter snr (applyContext (normContext redshift rows).1
      (normContext redshift rows).2 rows) ≠ [])
    (hs : tStart ≤ 0) (he : 0 ≤ tEnd) :
    (∀ o ∈ (read_in_photometry redshift tStart tEnd snr rows).1, 0 ≤ o.time) ∧
      ((read_in_photometry redshift tStart tEnd snr rows).1).length ≠ 0 ∧
      listMin (((read_in_photometry redshift tStart tEnd snr rows).1).map
        Obs.time) = 0 := by
  simp only [read_in_photometry]
  have hnonneg : ∀ o ∈ (windowFilter tStart tEnd (rebase (snrFilter snr
      (applyContext (normContext redshift rows).1 (normContext redshift rows).2
        rows)))).map
        (fun r => (⟨r.phase, r.flux, r.wv / 1000, r.err, r.width, r.filt⟩ : Obs)),
      0 ≤ o.time := by
    intro o ho
    obtain ⟨r4, hr4, rfl⟩ := List.mem_map.mp ho
    exact rebase_phase_nonneg _ _ ((windowFilter_mem _ _ _ _).mp hr4).1
  obtain ⟨x, hx, hx0⟩ := rebase_zero_mem _ hne
  have hxw : x ∈ windowFilter tStart tEnd (rebase (snrFilter snr
      (applyContext (normContext redshift rows).1 (normContext redshift rows).2
        rows))) := by
    refine (windowFilter_mem _ _ _ _).mpr ⟨hx, ?_, ?_⟩
    · rw [hx0]; exact he
    · rw [hx0]; exact hs
  have hmem0 : (0 : ℚ) ∈ ((windowFilter tStart tEnd (rebase (snrFilter snr
      (applyContext (normContext redshift rows).1 (normContext redshift rows).2
        rows)))).map
        (fun r => (⟨r.phase, r.flux, r.wv / 1000, r.err, r.width, r.filt⟩ : Obs))).map
        Obs.time := by
    rw [← hx0]
    exact List.mem_map_of_mem _ (List.mem_map_of_mem _ hxw)
  refine ⟨hnonneg, ?_, ?_⟩
  · intro hlen
    rw [List.length_eq_zero] at hlen
    rw [List.map_eq_nil_iff] at hlen
    exact (List.ne_nil_of_mem hxw) hlen
  · refine le_antisymm (listMin_le_mem _ _ hmem0) (le_listMin _ _ ?_ ?_)
    · exact List.ne_nil_of_mem hmem0
    · intro t ht
      obtain ⟨o, ho, rfl⟩ := List.mem_map.mp ht
      exact hnonneg o ho

/-- C3 amended-claim witness at a concrete input with the window containing 0. -/
theorem C3_time_rebase_witness :
    (∀ o ∈ (read_in_photometry 0 0 200 4 c3rows).1, 0 ≤ o.time) ∧
      ((read_in_photometry 0 0 200 4 c3rows).1).length ≠ 0 ∧
      listMin (((read_in_photometry 0 0 200 4 c3rows).1).map Obs.time) = 0 :=
  C3_time_rebase 0 0 200 4 c3rows
    (by
      norm_num [snrFilter, applyContext, normContext, c3rows, listMin,
        listMean, List.filter]
      exact List.cons_ne_nil _ _)
    (by norm_num) (by norm_num)

/-! ## Claim C4: wavelength normalization -/

/-- Two rows at distinct raw effective wavelengths, with redshift 1. -/
def c4rows : List PhotRow :=
  [⟨0, 0, 4000, 1, 0, "a"⟩, ⟨0, 0, 6000, 1, 0, "b"⟩]

/-- C4 (counterexample): at redshift 1 the output wavelengths are not the
de-redshifted wavelengths minus the mean (they would be -1/2 and 1/2 in
kilo-Angstroms); line 129 subtracts the deflated mean from the raw, not the
deflated, wavelengths, giving 3/2 and 7/2. -/
theorem C4_wavelength_counterexample :
    ((read_in_photometry 1 0 100 0 c4rows).1.map Obs.wv) ≠
      (c4rows.map fun r =>
        (r.wv / (1 + 1) - (read_in_photometry 1 0 100 0 c4rows).2.1) / 1000) := by
  norm_num [read_in_photometry, normContext, applyContext, snrFilter, rebase,
    windowFilter, listMin, listMean, c4rows, List.filter, List.foldl]

/-- C4 (amended): wavelengthCorrection is the mean of the redshift-deflated
raw effective wavelengths, but each output filterWavelength is the raw
(not de-redshifted) effective wavelength minus that mean, scaled to
kilo-Angstroms. -/
theorem C4_wavelength_normalization (redshift tStart tEnd snr : ℚ)
    (rows : List PhotRow) :
    (read_in_photometry redshift tStart tEnd snr rows).2.1 =
      listMean (rows.map fun r => r.wv / (1 + redshift)) ∧
    ∀ o ∈ (read_in_photometry redshift tStart tEnd snr rows).1,
      ∃ r ∈ rows,
        o.wv = (r.wv -
          (read_in_photometry redshift tStart tEnd snr rows).2.1) / 1000 ∧
        o.filt = r.filt := by
  refine ⟨rfl, ?_⟩
  simp only [read_in_photometry]
  intro o ho
  obtain ⟨r4, hr4, rfl⟩ := List.mem_map.mp ho
  have hr3 : r4 ∈ rebase (snrFilter snr (applyContext
      (normContext redshift rows).1 (normContext redshift rows).2 rows)) :=
    ((windowFilter_mem _ _ _ _).mp hr4).1
  simp only [rebase, List.mem_map] at hr3
  obtain ⟨r2, hr2, rfl⟩ := hr3
  have hr1 : r2 ∈ applyContext (normContext redshift rows).1
      (normContext redshift rows).2 rows :=
    (List.mem_filter.mp hr2).1
  simp only [applyContext, List.mem_map] at hr1
  obtain ⟨r, hr, rfl⟩ := hr1
  exact ⟨r, hr, rfl, rfl⟩

/-- C4 amended-claim witness: the first output observation of the concrete
redshift-1 dataset has wavelength (4000 - 2500)/1000. -/
theorem C4_wavelength_normalization_witness :
    ∃ r ∈ c4rows,
      (⟨0, 1, 3/2, 1, 0, "a"⟩ : Obs).wv =
        (r.wv - (read_in_photometry 1 0 100 0 c4rows).2.1) / 1000 ∧
      (⟨0, 1, 3/2, 1, 0, "a"⟩ : Obs).filt = r.filt :=
  (C4_wavelength_normalization 1 0 100 0 c4rows).2 _ (by
    norm_num [read_in_photometry, normContext, applyContext, snrFilter, rebase,
      windowFilter, listMin, listMean, c4rows, List.filter, List.foldl])

/-! ## Claim C10: normalization context computed before filtering -/

/-- Dataset whose second row fails the snr cut (1/10 < 4) while holding both
the minimum log-flux and the largest wavelength. -/
def c10all : List PhotRow :=
  [⟨0, 0, 4000, 1/10, 0, "g"⟩, ⟨1, -5, 8000, 10, 0, "g"⟩]

/-- The same dataset with the low-snr row removed. -/
def c10kept : List PhotRow := [⟨0, 0, 4000, 1/10, 0, "g"⟩]

/-- C10: the normalization context is computed from every input row before
the snr and window filters run — it is invariant under the filter settings
and equals (mean of deflated wavelengths, min log-flux - 1) over all rows;
and concretely, a row that the snr filter discards still shifts both
context scalars. -/
theorem C10_context_before_filtering :
    (∀ (redshift s1 e1 n1 s2 e2 n2 : ℚ) (rows : List PhotRow),
      (read_in_photometry redshift s1 e1 n1 rows).2 =
        (read_in_photometry redshift s2 e2 n2 rows).2 ∧
      (read_in_photometry redshift s1 e1 n1 rows).2 =
        (listMean (rows.map fun r => r.wv / (1 + redshift)),
         listMin (rows.map fun r => r.flux) - 1)) ∧
    (snrFilter 4 (applyContext (normContext 0 c10all).1
        (normContext 0 c10all).2 c10all)).length = 1 ∧
    (read_in_photometry 0 0 100 4 c10all).2 ≠
      (read_in_photometry 0 0 100 4 c10kept).2 := by
  refine ⟨fun redshift s1 e1 n1 s2 e2 n2 rows => ⟨rfl, rfl⟩, ?_, ?_⟩
  · norm_num [snrFilter, applyContext, normContext, c10all, listMin, listMean,
      List.filter]
  · norm_num [read_in_photometry, normContext, c10all, c10kept, listMin,
      listMean, Prod.ext_iff]

/-! ## Template Fitter (chi_square, lines 56-61; fit_template, lines 244-326)

scipy.optimize.curve_fit is an oracle here: fit_template's surrounding data
flow — candidate-data selection, aggregate chi-square accumulation and
argmin selection — is embedded over a given list of per-candidate fitted
parameter triples. -/

/-- Lines 56-61: chi2 += ((model[i]-dat[i])/uncertainty[i])**2 over the data
indices, pairing data, model and uncertainty positionally. -/
def chi_square (dat model unc : List ℚ) : ℚ :=
  ((dat.zip (model.zip unc)).map fun x => ((x.2.1 - x.1) / x.2.2) ^ 2).sum

/-- Insertion step of an insertion sort, modelling Python's sorted(). -/
def insertSorted (x : ℚ) : List ℚ → List ℚ
  | [] => [x]
  | y :: ys => if x ≤ y then x :: y :: ys else y :: insertSorted x ys

/-- Python's sorted() on a list of rationals. -/
def sortList (l : List ℚ) : List ℚ := l.foldr insertSorted []

/-- Lines 279-284, the model closure inside fit_template: sort the times,
map each through t * 1/t_s + t_c, query the template spline (an oracle
function) at the candidate filter wavelength and add the amplitude A. -/
def modelFn (template : ℚ → ℚ → ℚ) (time : List ℚ) (filt A t_c t_s : ℚ) :
    List ℚ :=
  (sortList time).map fun t => template (t * (1 / t_s) + t_c) filt + A

/-- Lines 291-294: select the entries of one data column at the indices
where filts * 1000 + wv_corr equals the candidate wavelength. -/
def filtSelect (filts col : List ℚ) (wv_corr w : ℚ) : List ℚ :=
  ((filts.zip col).filter fun x => x.1 * 1000 + wv_corr = w).map fun x => x.2

/-- Lines 300-304: the aggregate chi-square fit_template computes for one
candidate wavelength w with fitted parameters (A, t_c, t_s): the model is
evaluated at every filter wavelength in wv, but each term compares against
the candidate filter's own fluxes, times and uncertainties. -/
def codeAggChi (wv : List ℚ) (template : ℚ → ℚ → ℚ)
    (filts flux time errs : List ℚ) (wv_corr w A t_c t_s : ℚ) : ℚ :=
  (wv.map fun filt =>
    chi_square (filtSelect filts flux wv_corr w)
      (modelFn template (filtSelect filts time wv_corr w) filt A t_c t_s)
      (filtSelect filts errs wv_corr w)).sum

/-- Modelled from the spec: the aggregate chi-square the specification
describes, evaluating one candidate's fitted parameters against every
filter's own observations (each term uses that filter's fluxes, times and
uncertainties). -/
def specAggChi (wv : List ℚ) (template : ℚ → ℚ → ℚ)
    (filts flux time errs : List ℚ) (wv_corr A t_c t_s : ℚ) : ℚ :=
  (wv.map fun filt =>
    chi_square (filtSelect filts flux wv_corr filt)
      (modelFn template (filtSelect filts time wv_corr filt) filt A t_c t_s)
      (filtSelect filts errs wv_corr filt)).sum

/-- np.argmin semantics: first index of the minimum value (line 307). -/
def argminIdx : List ℚ → Nat
  | [] => 0
  | [_] => 0
  | x :: y :: ys => if x ≤ listMin (y :: ys) then 0 else argminIdx (y :: ys) + 1

/-- Line 306 with the per-candidate aggregates: the chi2 list accumulated by
the candidate loop, one entry per (wavelength, fitted parameters) pair. -/
def templChi2List (wv : List ℚ) (template : ℚ → ℚ → ℚ)
    (filts flux time errs : List ℚ) (wv_corr : ℚ)
    (fitted : List (ℚ × ℚ × ℚ)) : List ℚ :=
  (wv.zip fitted).map fun x =>
    codeAggChi wv template filts flux time errs wv_corr x.1 x.2.1 x.2.2.1
      x.2.2.2

/-- Lines 270-326 of fit_template with curve_fit as an oracle: given the
per-candidate fitted parameter triples (line 295-298), compute the chi2 list
and return the parameters of the first candidate attaining the minimal
aggregate chi-square (lines 306-314, output_chi = False branch). -/
def fit_template (wv : List ℚ) (template : ℚ → ℚ → ℚ)
    (filts flux time errs : List ℚ) (wv_corr : ℚ)
    (fitted : List (ℚ × ℚ × ℚ)) : ℚ × ℚ × ℚ :=
  fitted.getD
    (argminIdx (templChi2List wv template filts flux time errs wv_corr fitted))
    (0, 0, 0)

theorem foldl_min_comm (t : List ℚ) (a b : ℚ) :
    t.foldl min (min a b) = min a (t.foldl min b) := by
  induction t generalizing b with
  | nil => rfl
  | cons c t ih =>
      simp only [List.foldl_cons]
      rw [min_assoc, ih]

theorem listMin_cons (x : ℚ) (xs : List ℚ) (hne : xs ≠ []) :
    listMin (x :: xs) = min x (listMin xs) := by
  cases xs with
  | nil => exact absurd rfl hne
  | cons y ys =>
      show (y :: ys).foldl min x = min x (ys.foldl min y)
      simp only [List.foldl_cons]
      rw [← foldl_min_comm]

theorem argminIdx_lt_length (l : List ℚ) (hne : l ≠ []) :
    argminIdx l < l.length := by
  induction l with
  | nil => exact absurd rfl hne
  | cons x xs ih =>
      cases xs with
      | nil => simp [argminIdx]
      | cons y ys =>
          rw [argminIdx]
          by_cases hx : x ≤ listMin (y :: ys)
          · simp [hx]
          · simp only [hx, if_false]
            have := ih (List.cons_ne_nil y ys)
            simpa [Nat.succ_lt_succ_iff] using this

theorem getD_argminIdx (l : List ℚ) (hne : l ≠ []) :
    l.getD (argminIdx l) 0 = listMin l := by
  induction l with
  | nil => exact absurd rfl hne
  | cons x xs ih =>
      cases xs with
      | nil => simp [argminIdx, listMin]
      | cons y ys =>
          rw [argminIdx, listMin_cons x (y :: ys) (List.cons_ne_nil y ys)]
          by_cases hx : x ≤ listMin (y :: ys)
          · simp [hx, min_eq_left hx]
          · simp only [hx, if_false]
            push_neg at hx
            rw [min_eq_right (le_of_lt hx)]
            simpa using ih (List.cons_ne_nil y ys)

theorem argminIdx_le (l : List ℚ) (j : Nat) (hj : j < l.length) :
    l.getD (argminIdx l) 0 ≤ l.getD j 0 := by
  have hne : l ≠ [] := by
    intro h
    rw [h] at hj
    exact Nat.not_lt_zero j hj
  rw [getD_argminIdx l hne]
  have hmem : l.getD j 0 ∈ l := by
    rw [List.getD_eq_getElem l 0 hj]
    exact List.getElem_mem hj
  exact listMin_le_mem l _ hmem

/-! ## Claim C1: template fitter aggregate chi-square and selection -/

/-- C1 (counterexample): with two filters (4000 and 6000 Angstroms), one
observation each, a linear template and parameters (A, t_c, t_s) =
(0, 0, 1), the aggregate chi-square fit_template computes for the 4000
candidate (52: both terms reuse the candidate's own datum) differs from the
spec's every-filter-data aggregate (232). -/
theorem C1_aggregate_chi2_counterexample :
    codeAggChi [4000, 6000] (fun _ f => f / 1000) [4, 6] [10, 20] [0, 1]
        [1, 1] 0 4000 0 0 1 ≠
      specAggChi [4000, 6000] (fun _ f => f / 1000) [4, 6] [10, 20] [0, 1]
        [1, 1] 0 0 0 1 := by
  norm_num [codeAggChi, specAggChi, chi_square, modelFn, filtSelect, sortList,
    insertSorted, List.filter]

/-- C1 (amended): each candidate's aggregate chi-square evaluates the
candidate's fitted parameters at every filter's wavelength but always
against the candidate filter's own observations; fit_template returns the
fitted parameters of the first candidate whose aggregate chi-square is
minimal, and that aggregate is at most every other candidate's. -/
theorem C1_template_selection (wv : List ℚ) (template : ℚ → ℚ → ℚ)
    (filts flux time errs : List ℚ) (wv_corr : ℚ)
    (fitted : List (ℚ × ℚ × ℚ)) (hne : wv ≠ []) (hlen : fitted.length = wv.length) :
    fit_template wv template filts flux time errs wv_corr fitted =
      fitted.getD
        (argminIdx (templChi2List wv template filts flux time errs wv_corr
          fitted)) (0, 0, 0) ∧
    argminIdx (templChi2List wv template filts flux time errs wv_corr fitted) <
      (templChi2List wv template filts flux time errs wv_corr fitted).length ∧
    (∀ j, j < (templChi2List wv template filts flux time errs wv_corr
        fitted).length →
      (templChi2List wv template filts flux time errs wv_corr fitted).getD
          (argminIdx (templChi2List wv template filts flux time errs wv_corr
            fitted)) 0 ≤
        (templChi2List wv template filts flux time errs wv_corr fitted).getD
          j 0) := by
  refine ⟨rfl, ?_, fun j hj => argminIdx_le _ j hj⟩
  apply argminIdx_lt_length
  intro hnil
  have hz : (templChi2List wv template filts flux time errs wv_corr
      fitted).length = 0 := by rw [hnil]; rfl
  rw [templChi2List, List.length_map, List.length_zip, hlen,
    Nat.min_self] at hz
  cases wv with
  | nil => exact hne rfl
  | cons a l => exact Nat.succ_ne_zero _ hz

/-- C1 amended-claim witness at the concrete two-filter dataset: the 4000
candidate (aggregate 52) beats the 6000 candidate, and its parameters are
returned. -/
theorem C1_template_selection_witness :
    fit_template [4000, 6000] (fun _ f => f / 1000) [4, 6] [10, 20] [0, 1]
        [1, 1] 0 [(1, 2, 3), (4, 5, 6)] =
      [((1 : ℚ), (2 : ℚ), (3 : ℚ)), (4, 5, 6)].getD
        (argminIdx (templChi2List [4000, 6000] (fun _ f => f / 1000) [4, 6]
          [10, 20] [0, 1] [1, 1] 0 [(1, 2, 3), (4, 5, 6)])) (0, 0, 0) ∧
    argminIdx (templChi2List [4000, 6000] (fun _ f => f / 1000) [4, 6]
        [10, 20] [0, 1] [1, 1] 0 [(1, 2, 3), (4, 5, 6)]) <
      (templChi2List [4000, 6000] (fun _ f => f / 1000) [4, 6] [10, 20] [0, 1]
        [1, 1] 0 [(1, 2, 3), (4, 5, 6)]).length ∧
    (∀ j, j < (templChi2List [4000, 6000] (fun _ f => f / 1000) [4, 6]
        [10, 20] [0, 1] [1, 1] 0 [(1, 2, 3), (4, 5, 6)]).length →
      (templChi2List [4000, 6000] (fun _ f => f / 1000) [4, 6] [10, 20] [0, 1]
          [1, 1] 0 [(1, 2, 3), (4, 5, 6)]).getD
          (argminIdx (templChi2List [4000, 6000] (fun _ f => f / 1000) [4, 6]
            [10, 20] [0, 1] [1, 1] 0 [(1, 2, 3), (4, 5, 6)])) 0 ≤
        (templChi2List [4000, 6000] (fun _ f => f / 1000) [4, 6] [10, 20]
          [0, 1] [1, 1] 0 [(1, 2, 3), (4, 5, 6)]).getD j 0) :=
  C1_template_selection [4000, 6000] (fun _ f => f / 1000) [4, 6] [10, 20]
    [0, 1] [1, 1] 0 [(1, 2, 3), (4, 5, 6)] (List.cons_ne_nil _ _) rfl

/-! ## Gaussian Process Interpolator (interpolate, lines 364-451)

The george GP posterior mean is an oracle function of (time, wavelength);
the embedding covers the construction of the prediction grid x_pred
(lines 437-440) and the column-wise population of dense_lc from the grid
predictions (lines 444-449). -/

/-- Module-level epsilon = 0.0001 (line 22). -/
def epsilonQ : ℚ := 1/10000

/-- Lines 437-440: x_pred pairs every original observation time with every
unique filter wavelength, epoch-major ([time]*nfilts alongside ufilts). -/
def x_pred (times ufilts : List ℚ) : List (ℚ × ℚ) :=
  times.bind fun t => ufilts.map fun f => (t, f)

/-- Line 442: the predictions over the grid, pred = gp.predict(..., x_pred). -/
def gpPreds (gpMean : ℚ → ℚ → ℚ) (times ufilts : List ℚ) : List ℚ :=
  (x_pred times ufilts).map fun p => gpMean p.1 p.2

/-- Lines 445-447 for one filter index: gind selects the grid rows whose
wavelength is within epsilon of the filter's, and the matching predictions
pred[gind] become that filter's dense flux column. -/
def denseColumn (gpMean : ℚ → ℚ → ℚ) (times ufilts : List ℚ) (u : ℚ) :
    List ℚ :=
  ((x_pred times ufilts).zip (gpPreds gpMean times ufilts)).filterMap
    fun x => if |x.1.2 - u| < epsilonQ then some x.2 else none

/-- Lines 444-449, flux plane of dense_lc: one column per unique filter. -/
def denseFluxes (gpMean : ℚ → ℚ → ℚ) (times ufilts : List ℚ) :
    List (List ℚ) :=
  ufilts.map fun u => denseColumn gpMean times ufilts u

theorem filterMap_zip_map {α β : Type} (l : List α) (g : α → β)
    (P : α → Prop) [DecidablePred P] :
    ((l.zip (l.map g)).filterMap fun x => if P x.1 then some x.2 else none) =
      (l.filter fun a => P a).map g := by
  induction l with
  | nil => rfl
  | cons a l ih =>
      simp only [List.map_cons, List.zip_cons_cons, List.filterMap_cons,
        List.filter_cons]
      by_cases hp : P a
      · simp [hp, ih]
      · simp [hp, ih]

theorem filter_eps_eq_single (ufilts : List ℚ) (u : ℚ) (hu : u ∈ ufilts)
    (hnd : ufilts.Nodup)
    (hsep : ∀ a ∈ ufilts, ∀ b ∈ ufilts, a ≠ b → epsilonQ ≤ |a - b|) :
    (ufilts.filter fun f => |f - u| < epsilonQ) = [u] := by
  induction ufilts with
  | nil => cases hu
  | cons a l ih =>
      rcases List.mem_cons.mp hu with rfl | hu'
      · have h0 : |u - u| < epsilonQ := by
          simp [epsilonQ]
        have hl : (l.filter fun f => |f - u| < epsilonQ) = [] := by
          rw [List.filter_eq_nil_iff]
          intro b hb
          have hbu : b ≠ u := by
            intro h
            rw [h] at hb
            exact (List.nodup_cons.mp hnd).1 hb
          have := hsep b (List.mem_cons_of_mem _ hb) u
            (List.mem_cons_self _ _) hbu
          simp only [decide_eq_true_eq, not_lt]
          exact this
        rw [List.filter_cons, if_pos (decide_eq_true h0), hl]
      · have hau : a ≠ u := by
          intro h
          rw [h] at hnd
          exact (List.nodup_cons.mp hnd).1 hu'
        have hsepau := hsep a (List.mem_cons_self _ _) u
          (List.mem_cons_of_mem _ hu') hau
        have hna : ¬ (|a - u| < epsilonQ) := not_lt.mpr hsepau
        rw [List.filter_cons, if_neg (by simp [hna])]
        exact ih hu' (List.nodup_cons.mp hnd).2
          (fun x hx y hy hxy => hsep x (List.mem_cons_of_mem _ hx) y
            (List.mem_cons_of_mem _ hy) hxy)

theorem denseColumn_eq (gpMean : ℚ → ℚ → ℚ) (times ufilts : List ℚ) (u : ℚ)
    (hu : u ∈ ufilts) (hnd : ufilts.Nodup)
    (hsep : ∀ a ∈ ufilts, ∀ b ∈ ufilts, a ≠ b → epsilonQ ≤ |a - b|) :
    denseColumn gpMean times ufilts u = times.map fun t => gpMean t u := by
  unfold denseColumn gpPreds
  rw [filterMap_zip_map (x_pred times ufilts) (fun p => gpMean p.1 p.2)
    (fun x => |x.2 - u| < epsilonQ)]
  unfold x_pred
  induction times with
  | nil => rfl
  | cons t ts ih =>
      simp only [List.cons_bind, List.filter_append, List.map_append,
        List.map_cons, ih]
      have hone : (((ufilts.map fun f => ((t : ℚ), f)).filter
            fun x => decide (|x.2 - u| < epsilonQ)).map
          fun p : ℚ × ℚ => gpMean p.1 p.2) = [gpMean t u] := by
        rw [List.filter_map, List.map_map]
        have hsingle : ((ufilts.filter fun f => |f - u| < epsilonQ).map
            fun f => gpMean t f) = [gpMean t u] := by
          rw [filter_eps_eq_single ufilts u hu hnd hsep]
          rfl
        exact hsingle
      rw [hone]
      rfl

/-- C2: after a successful GP fit the dense flux plane has one column per
unique filter and one entry per original observation epoch in every column
(numObservationEpochs x numUniqueFilters entries in all, each defined), and
the (epoch, filter) entry is exactly the GP prediction at that original
observation time and that filter wavelength — provided the distinct
normalized filter wavelengths are separated by at least epsilon (0.0001
kilo-Angstroms, i.e. 0.1 Angstroms), which the epsilon-matching of
lines 445-447 requires. -/
theorem C2_dense_grid (gpMean : ℚ → ℚ → ℚ) (times ufilts : List ℚ)
    (hnd : ufilts.Nodup)
    (hsep : ∀ a ∈ ufilts, ∀ b ∈ ufilts, a ≠ b → epsilonQ ≤ |a - b|) :
    (denseFluxes gpMean times ufilts).length = ufilts.length ∧
    (∀ col ∈ denseFluxes gpMean times ufilts, col.length = times.length) ∧
    (∀ j, j < ufilts.length →
      (denseFluxes gpMean times ufilts).getD j [] =
        times.map fun t => gpMean t (ufilts.getD j 0)) := by
  refine ⟨List.length_map _ _, ?_, ?_⟩
  · intro col hcol
    obtain ⟨u, hu, rfl⟩ := List.mem_map.mp hcol
    rw [denseColumn_eq gpMean times ufilts u hu hnd hsep]
    exact List.length_map _ _
  · intro j hj
    have hlen : j < (denseFluxes gpMean times ufilts).length := by
      simp only [denseFluxes, List.length_map]
      exact hj
    rw [List.getD_eq_getElem _ _ hlen]
    rw [List.getD_eq_getElem _ _ hj]
    simp only [denseFluxes, List.getElem_map]
    exact denseColumn_eq gpMean times ufilts _ (List.getElem_mem hj) hnd hsep

/-- C2 witness: two epochs, two separated filters, a concrete GP mean. -/
theorem C2_dense_grid_witness :
    (denseFluxes (fun t f => t + f) [0, 3] [1, 2]).length =
      ([1, 2] : List ℚ).length ∧
    (∀ col ∈ denseFluxes (fun t f => t + f) [0, 3] [1, 2],
      col.length = ([0, 3] : List ℚ).length) ∧
    (∀ j, j < ([1, 2] : List ℚ).length →
      (denseFluxes (fun t f => t + f) [0, 3] [1, 2]).getD j [] =
        ([0, 3] : List ℚ).map fun t =>
          t + (([1, 2] : List ℚ).getD j 0)) :=
  C2_dense_grid (fun t f => t + f) [0, 3] [1, 2]
    (by norm_num)
    (by
      intro a ha b hb hab
      simp only [List.mem_cons, List.not_mem_nil, or_false] at ha hb
      rcases ha with rfl | rfl <;> rcases hb with rfl | rfl <;>
        first
          | exact absurd rfl hab
          | norm_num [epsilonQ])

/-! ## Blackbody Fitter (fit_bb, lines 454-513) -/

theorem getD_map_of_lt {α β : Type} (f : α → β) (l : List α) (i : Nat)
    (h : i < l.length) (d : β) :
    (l.map f).getD i d = f (l.get ⟨i, h⟩) := by
  have hm : i < (l.map f).length := by
    rw [List.length_map]
    exact h
  rw [List.getD_eq_getElem _ _ hm, List.getElem_map]
  rfl

/-- Lines 483-511 of fit_bb with scipy curve_fit as an oracle: per epoch the
oracle either yields the raw fit values (T, R_raw and the diagonal square
roots of the covariance T_err, R_err), or none when curve_fit raises.  A
raised fit is recorded as all-NaN for its epoch (none, lines 502-506) and
the loop continues; a successful fit records T, the absolute value of the
radius, and the errors (lines 497-501, 508-511). -/
def fit_bb {α : Type} (bbOracle : α → Option (ℚ × ℚ × ℚ × ℚ))
    (dense_lc : List α) :
    List (Option ℚ × Option ℚ × Option ℚ × Option ℚ) :=
  dense_lc.map fun datapoint =>
    match bbOracle datapoint with
    | some q => (some q.1, some |q.2.1|, some q.2.2.1, some q.2.2.2)
    | none => (none, none, none, none)

/-- C6: a per-epoch blackbody fit failure is recorded as NaN (none) in all
four slots for exactly that epoch and never terminates the loop — the
output always has one entry per epoch, and each entry depends only on its
own epoch's fit; a successful fit records the fitted temperature, the
absolute value of the fitted radius, and the two errors. -/
theorem C6_bb_failure_isolation {α : Type}
    (bbOracle : α → Option (ℚ × ℚ × ℚ × ℚ)) (dense_lc : List α) :
    (fit_bb bbOracle dense_lc).length = dense_lc.length ∧
    ∀ (i : Nat) (h : i < dense_lc.length),
      (bbOracle (dense_lc.get ⟨i, h⟩) = none →
        (fit_bb bbOracle dense_lc).getD i (none, none, none, none) =
          (none, none, none, none)) ∧
      (∀ T R Te Re, bbOracle (dense_lc.get ⟨i, h⟩) = some (T, R, Te, Re) →
        (fit_bb bbOracle dense_lc).getD i (none, none, none, none) =
          (some T, some |R|, some Te, some Re)) := by
  refine ⟨List.length_map _ _, ?_⟩
  intro i h
  constructor
  · intro hn
    rw [fit_bb, getD_map_of_lt _ _ i h, hn]
  · intro T R Te Re hs
    rw [fit_bb, getD_map_of_lt _ _ i h, hs]

/-- A concrete per-epoch fit oracle: raises (none) at datum 0, converges
elsewhere with a negative raw radius. -/
def c6oracle : ℚ → Option (ℚ × ℚ × ℚ × ℚ) :=
  fun x => if x = 0 then none else some (x, -x, 1, 1)

/-- C6 witness: epoch 0 fails and is all-NaN, epoch 1 still succeeds with
the radius recorded as an absolute value. -/
theorem C6_bb_failure_isolation_witness :
    (fit_bb c6oracle [0, 2]).getD 0 (none, none, none, none) =
      (none, none, none, none) ∧
    (fit_bb c6oracle [0, 2]).getD 1 (none, none, none, none) =
      (some (2 : ℚ), some (2 : ℚ), some (1 : ℚ), some (1 : ℚ)) := by
  constructor
  · exact ((C6_bb_failure_isolation c6oracle [0, 2]).2 0 (by norm_num)).1
      (by norm_num [c6oracle])
  · have h2 := ((C6_bb_failure_isolation c6oracle [0, 2]).2 1 (by norm_num)).2
      2 (-2) 1 1 (by norm_num [c6oracle])
    simpa using h2

/-! ## Bolometric luminosity (main, lines 804-807) -/

/-- Line 24: sigsb = 5.6704e-5 erg / cm^2 / s / K^4. -/
noncomputable def sigsb : ℝ := 5.6704e-5

/-- Line 804: bol_lum = 4 * np.pi * Rarr**2 * sigsb * Tarr**4, per epoch. -/
noncomputable def bol_lum (T R : ℝ) : ℝ := 4 * Real.pi * R ^ 2 * sigsb * T ^ 4

/-- Lines 805-807: bol_err = 4 pi sigsb sqrt((2 R T^4 Rerr)^2 +
(4 T^3 R^2 Terr)^2), per epoch. -/
noncomputable def bol_err (T R Te Re : ℝ) : ℝ :=
  4 * Real.pi * sigsb *
    Real.sqrt ((2 * R * T ^ 4 * Re) ^ 2 + (4 * T ^ 3 * R ^ 2 * Te) ^ 2)

/-- Lines 802-807 at the epoch level: the per-epoch blackbody fit results
feed the two formulas elementwise; an epoch whose fit produced NaN (none)
propagates NaN through both. -/
noncomputable def bol_arr (fits : List (Option (ℝ × ℝ × ℝ × ℝ))) :
    List (Option ℝ × Option ℝ) :=
  fits.map fun f =>
    match f with
    | none => (none, none)
    | some q => (some (bol_lum q.1 q.2.1),
        some (bol_err q.1 q.2.1 q.2.2.1 q.2.2.2))

/-- C7: every epoch with a defined fit gets luminosity 4 pi R^2 sigma T^4 —
at T = 10000 K and R = 1e15 cm exactly that closed form — and uncertainty
4 pi sigma sqrt((2 R T^4 Rerr)^2 + (4 T^3 R^2 Terr)^2), which equals the
quadrature combination of the two partial-derivative terms
sqrt((8 pi sigma R T^4 Rerr)^2 + (16 pi sigma T^3 R^2 Terr)^2); an epoch
with an undefined fit gets undefined luminosity and error. -/
theorem C7_bolometric (fits : List (Option (ℝ × ℝ × ℝ × ℝ))) (i : Nat)
    (h : i < fits.length) :
    (fits.get ⟨i, h⟩ = none →
      (bol_arr fits).getD i (none, none) = (none, none)) ∧
    (∀ T R Te Re, fits.get ⟨i, h⟩ = some (T, R, Te, Re) →
      (bol_arr fits).getD i (none, none) =
        (some (4 * Real.pi * R ^ 2 * sigsb * T ^ 4),
         some (4 * Real.pi * sigsb *
           Real.sqrt ((2 * R * T ^ 4 * Re) ^ 2 +
             (4 * T ^ 3 * R ^ 2 * Te) ^ 2)))) ∧
    bol_lum 10000 1e15 = 4 * Real.pi * (1e15) ^ 2 * sigsb * (10000) ^ 4 ∧
    (∀ T R Te Re, bol_err T R Te Re =
      Real.sqrt ((8 * Real.pi * sigsb * R * T ^ 4 * Re) ^ 2 +
        (16 * Real.pi * sigsb * T ^ 3 * R ^ 2 * Te) ^ 2)) := by
  refine ⟨?_, ?_, rfl, ?_⟩
  · intro hn
    rw [bol_arr, getD_map_of_lt _ _ i h, hn]
  · intro T R Te Re hs
    rw [bol_arr, getD_map_of_lt _ _ i h, hs]
    rfl
  · intro T R Te Re
    have hsig : (0 : ℝ) < sigsb := by
      unfold sigsb
      norm_num
    have hc : (0 : ℝ) ≤ 4 * Real.pi * sigsb := by
      have hp := Real.pi_pos
      nlinarith
    rw [bol_err, ← Real.sqrt_sq hc, ← Real.sqrt_mul (sq_nonneg _)]
    congr 1
    ring

/-- C7 witness at a concrete defined fit (T = 10000 K, R = 1e15 cm). -/
theorem C7_bolometric_witness :
    (bol_arr [some ((10000 : ℝ), (1e15 : ℝ), (100 : ℝ), (1e13 : ℝ))]).getD 0
        (none, none) =
      (some (4 * Real.pi * (1e15) ^ 2 * sigsb * (10000) ^ 4),
       some (4 * Real.pi * sigsb *
         Real.sqrt ((2 * 1e15 * (10000) ^ 4 * 1e13) ^ 2 +
           (4 * (10000) ^ 3 * (1e15) ^ 2 * 100) ^ 2))) :=
  (C7_bolometric [some (10000, 1e15, 100, 1e13)] 0 (by norm_num)).2.1
    10000 1e15 100 1e13 rfl

/-! ## Output table assembly (write_output, lines 651-708; main, lines
793-800)

np.unique sorts ascending and deduplicates: over the numeric normalized
wavelengths for the dense columns (interpolate line 386, main line 794), and
over the filter name strings (lexicographically) for the header labels
(write_output line 693). -/

/-- Lexicographic comparison of character lists by code point, modelling
numpy's string ordering. -/
def charListLt : List Char → List Char → Bool
  | [], [] => false
  | [], _ :: _ => true
  | _ :: _, [] => false
  | a :: as, b :: bs =>
      if a.toNat < b.toNat then true
      else if b.toNat < a.toNat then false
      else charListLt as bs

/-- Lexicographic string comparison by code point. -/
def strLt (a b : String) : Bool := charListLt a.toList b.toList

/-- Sorted insert discarding duplicates, for np.unique over rationals. -/
def insertUnique (x : ℚ) : List ℚ → List ℚ
  | [] => [x]
  | y :: ys =>
      if x = y then y :: ys
      else if x < y then x :: y :: ys
      else y :: insertUnique x ys

/-- np.unique over rationals: ascending distinct values. -/
def uniqueSorted (l : List ℚ) : List ℚ := l.foldr insertUnique []

/-- Sorted insert discarding duplicates, for np.unique over strings. -/
def insertUniqueStr (x : String) : List String → List String
  | [] => [x]
  | y :: ys =>
      if x = y then y :: ys
      else if strLt x y then x :: y :: ys
      else y :: insertUniqueStr x ys

/-- np.unique over strings: lexicographically ascending distinct values. -/
def uniqueSortedStr (l : List String) : List String :=
  l.foldr insertUniqueStr []

/-- Lines 693-700: the output table header — the time column, one
(filter, filter_err) label pair per np.unique-sorted filter name, then the
blackbody columns. -/
def table_header (my_filters : List String) : List String :=
  "Time (MJD)" ::
    (((uniqueSortedStr my_filters).bind fun filt => [filt, filt ++ "_err"]) ++
      ["Temp./1e3 (K)", "Temp. Err.", "Radius/1e15 (cm)", "Radius Err.",
       "Log10(Bol. Lum)", "Log10(Bol. Err)"])

/-- The filter identifiers whose interpolated values the dense column pairs
actually hold, in column order: the dense columns follow the ascending
unique normalized wavelengths, and each wavelength belongs to the named
filter of the row carrying it (rows pair each observation's normalized
wavelength with its filter identifier). -/
def columnFilters (rows : List (ℚ × String)) : List String :=
  (uniqueSorted (rows.map fun r => r.1)).map fun w =>
    match rows.find? fun r => r.1 = w with
    | some r => r.2
    | none => ""

/-- Two filters whose alphabetical name order (LSST/g before LSST/u) is the
reverse of their wavelength order (u is bluer than g); wavelengths are in
the normalized kilo-Angstrom units. -/
def c8rows : List (ℚ × String) := [(-1/2, "LSST/u"), (7/10, "LSST/g")]

/-- C8 (failing input): the first per-filter header label is the
alphabetically first filter name LSST/g, but the first dense column pair
holds the data of the bluest filter LSST/u — the header is computed from
np.unique over names while the columns follow np.unique over wavelengths,
so the label does not match the data it heads. -/
theorem C8_header_mismatch :
    (table_header (c8rows.map fun r => r.2)).getD 1 "" = "LSST/g" ∧
    (columnFilters c8rows).getD 0 "" = "LSST/u" ∧
    (table_header (c8rows.map fun r => r.2)).getD 1 "" ≠
      (columnFilters c8rows).getD 0 "" := by
  have h2 : (columnFilters c8rows).getD 0 "" = "LSST/u" := by
    norm_num [columnFilters, uniqueSorted, insertUnique, c8rows, List.find?]
  refine ⟨by decide, h2, ?_⟩
  rw [h2]
  decide

/-- Line 687: np.reshape flattens one epoch's (flux, err) pairs
filter-major. -/
def flattenDense (d : List (ℚ × ℚ)) : List ℚ := d.bind fun p => [p.1, p.2]

/-- Line 688: dense_lc = np.hstack((np.reshape(-times, ...), dense_lc)):
prepend the negated epoch time to each epoch's flattened pairs. -/
def denseWithTime (times : List ℚ) (dense : List (List (ℚ × ℚ))) :
    List (List ℚ) :=
  (times.zip dense).map fun x => (-x.1) :: flattenDense x.2

/-- Lines 689-691: tabledata = np.hstack((-dense_lc, bb)).T: negate every
entry of dense_lc (turning the time column back to its original sign and the
flux and uncertainty entries into minus their dense values) and append the
blackbody-derived columns to each epoch row. -/
def outputRows (times : List ℚ) (dense : List (List (ℚ × ℚ)))
    (bb : List (List ℚ)) : List (List ℚ) :=
  ((denseWithTime times dense).zip bb).map fun x =>
    (x.1.map fun v => -v) ++ x.2

theorem flattenDense_length (d : List (ℚ × ℚ)) :
    (flattenDense d).length = 2 * d.length := by
  induction d with
  | nil => rfl
  | cons p rest ih =>
      show (p.1 :: p.2 :: flattenDense rest).length = 2 * (rest.length + 1)
      simp only [List.length_cons, ih]
      ring

theorem flattenDense_getD_fst (d : List (ℚ × ℚ)) (j : Nat)
    (hj : j < d.length) :
    (flattenDense d).getD (2 * j) 0 = (d.getD j (0, 0)).1 := by
  induction d generalizing j with
  | nil => cases hj
  | cons p rest ih =>
      cases j with
      | zero => rfl
      | succ j' =>
          show (p.1 :: p.2 :: flattenDense rest).getD (2 * (j' + 1)) 0 =
            ((p :: rest).getD (j' + 1) (0, 0)).1
          have h2 : 2 * (j' + 1) = (2 * j' + 1) + 1 := by ring
          rw [h2, List.getD_cons_succ, List.getD_cons_succ,
            List.getD_cons_succ]
          exact ih j' (Nat.lt_of_succ_lt_succ hj)

theorem flattenDense_getD_snd (d : List (ℚ × ℚ)) (j : Nat)
    (hj : j < d.length) :
    (flattenDense d).getD (2 * j + 1) 0 = (d.getD j (0, 0)).2 := by
  induction d generalizing j with
  | nil => cases hj
  | cons p rest ih =>
      cases j with
      | zero => rfl
      | succ j' =>
          show (p.1 :: p.2 :: flattenDense rest).getD (2 * (j' + 1) + 1) 0 =
            ((p :: rest).getD (j' + 1) (0, 0)).2
          have h2 : 2 * (j' + 1) + 1 = ((2 * j' + 1) + 1) + 1 := by ring
          rw [h2, List.getD_cons_succ, List.getD_cons_succ,
            List.getD_cons_succ]
          exact ih j' (Nat.lt_of_succ_lt_succ hj)

theorem zip_map_getD {α β γ : Type} (f : α × β → γ) (l1 : List α)
    (l2 : List β) (e : Nat) (h1 : e < l1.length) (h2 : e < l2.length)
    (d1 : α) (d2 : β) (dg : γ) :
    ((l1.zip l2).map f).getD e dg = f (l1.getD e d1, l2.getD e d2) := by
  induction l1 generalizing l2 e with
  | nil => cases h1
  | cons a l1 ih =>
      cases l2 with
      | nil => cases h2
      | cons b l2 =>
          cases e with
          | zero => rfl
          | succ e' =>
              simp only [List.zip_cons_cons, List.map_cons,
                List.getD_cons_succ]
              exact ih l2 e' (Nat.lt_of_succ_lt_succ h1)
                (Nat.lt_of_succ_lt_succ h2)

theorem getD_map_neg (l : List ℚ) (i : Nat) (hi : i < l.length) :
    (l.map fun v => -v).getD i 0 = -(l.getD i 0) := by
  rw [getD_map_of_lt _ l i hi, List.getD_eq_getElem l 0 hi]
  rfl

/-- C9: in each written row the time column carries the original
(non-negated) epoch time, while every per-filter flux entry and every
per-filter uncertainty entry is the negation of the corresponding dense
light curve value (the flux-corrected GP mean resp. the GP standard
deviation); in particular the written uncertainty is non-positive whenever
the dense standard deviation is non-negative. -/
theorem C9_negated_output (times : List ℚ) (dense : List (List (ℚ × ℚ)))
    (bb : List (List ℚ)) (e j : Nat)
    (he1 : e < times.length) (he2 : e < dense.length) (he3 : e < bb.length)
    (hj : j < (dense.getD e []).length) :
    ((outputRows times dense bb).getD e []).getD 0 0 = times.getD e 0 ∧
    ((outputRows times dense bb).getD e []).getD (1 + 2 * j) 0 =
      -(((dense.getD e []).getD j (0, 0)).1) ∧
    ((outputRows times dense bb).getD e []).getD (2 + 2 * j) 0 =
      -(((dense.getD e []).getD j (0, 0)).2) ∧
    (0 ≤ ((dense.getD e []).getD j (0, 0)).2 →
      ((outputRows times dense bb).getD e []).getD (2 + 2 * j) 0 ≤ 0) := by
  have hdw : e < (denseWithTime times dense).length := by
    simp only [denseWithTime, List.length_map, List.length_zip]
    exact Nat.lt_min.mpr ⟨he1, he2⟩
  have hrow : (outputRows times dense bb).getD e [] =
      (((denseWithTime times dense).getD e []).map fun v => -v) ++
        bb.getD e [] := by
    rw [outputRows, zip_map_getD _ _ _ e hdw he3 [] []]
  have hdwrow : (denseWithTime times dense).getD e [] =
      (-(times.getD e 0)) :: flattenDense (dense.getD e []) := by
    rw [denseWithTime, zip_map_getD _ _ _ e he1 he2 0 []]
  rw [hrow, hdwrow]
  have hflen : (flattenDense (dense.getD e [])).length =
      2 * (dense.getD e []).length := flattenDense_length _
  have hsnd : ((((-(times.getD e 0)) ::
        flattenDense (dense.getD e [])).map fun v => -v) ++
        bb.getD e []).getD (2 + 2 * j) 0 =
      -(((dense.getD e []).getD j (0, 0)).2) := by
    have hidx : 2 + 2 * j = (2 * j + 1) + 1 := by ring
    rw [List.map_cons, List.cons_append, hidx, List.getD_cons_succ]
    have hlt : 2 * j + 1 <
        ((flattenDense (dense.getD e [])).map fun v => -v).length := by
      rw [List.length_map, hflen]
      omega
    rw [List.getD_append _ _ _ _ hlt]
    rw [getD_map_neg _ _ (by rw [hflen]; omega)]
    rw [flattenDense_getD_snd _ j hj]
  refine ⟨?_, ?_, hsnd, fun hpos => ?_⟩
  · rw [List.map_cons, List.cons_append]
    simp only [List.getD_cons_zero]
    exact neg_neg _
  · have hidx : 1 + 2 * j = 2 * j + 1 := by ring
    rw [List.map_cons, List.cons_append, hidx, List.getD_cons_succ]
    have hlt : 2 * j <
        ((flattenDense (dense.getD e [])).map fun v => -v).length := by
      rw [List.length_map, hflen]
      omega
    rw [List.getD_append _ _ _ _ hlt]
    rw [getD_map_neg _ _ (by rw [hflen]; omega)]
    rw [flattenDense_getD_fst _ j hj]
  · rw [hsnd]
    exact neg_nonpos.mpr hpos

/-- C9 witness at one epoch, one filter: time 5 stays 5, the dense pair
(3, 2) is written as (-3, -2), and the written uncertainty is
non-positive. -/
theorem C9_negated_output_witness :
    ((outputRows [5] [[(3, 2)]] [[0, 0, 0, 0, 0, 0]]).getD 0 []).getD 0 0 =
      ([5] : List ℚ).getD 0 0 ∧
    ((outputRows [5] [[(3, 2)]] [[0, 0, 0, 0, 0, 0]]).getD 0 []).getD
        (1 + 2 * 0) 0 =
      -(((([[(3, 2)]] : List (List (ℚ × ℚ))).getD 0 []).getD 0 (0, 0)).1) ∧
    ((outputRows [5] [[(3, 2)]] [[0, 0, 0, 0, 0, 0]]).getD 0 []).getD
        (2 + 2 * 0) 0 =
      -(((([[(3, 2)]] : List (List (ℚ × ℚ))).getD 0 []).getD 0 (0, 0)).2) ∧
    (0 ≤ ((([[(3, 2)]] : List (List (ℚ × ℚ))).getD 0 []).getD 0 (0, 0)).2 →
      ((outputRows [5] [[(3, 2)]] [[0, 0, 0, 0, 0, 0]]).getD 0 []).getD
          (2 + 2 * 0) 0 ≤ 0) :=
  C9_negated_output [5] [[(3, 2)]] [[0, 0, 0, 0, 0, 0]] 0 0
    (by norm_num) (by norm_num) (by norm_num) (by norm_num)

/-! ## Log-flux conversion (read_in_photometry, lines 120-122) -/

/-- Line 122: flux = 2.5 * (np.log10(flux) - np.log10(3631.00)), the
log-flux scale anchored at the AB zero-point. -/
noncomputable def logFluxConv (flux : ℝ) : ℝ :=
  2.5 * (Real.logb 10 flux - Real.logb 10 3631)

/-- The inverse of the line-122 conversion: flux = 3631 * 10^(logflux/2.5)
(the zero-point anchored inverse of the log-flux map). -/
noncomputable def logFluxInv (logflux : ℝ) : ℝ :=
  3631 * (10 : ℝ) ^ (logflux / 2.5)

/-- C5: for every positive linear flux, converting to the log-flux scale of
line 122 and back through the inverse map recovers the flux exactly. -/
theorem C5_logflux_roundtrip (flux : ℝ) (hf : 0 < flux) :
    logFluxInv (logFluxConv flux) = flux := by
  rw [logFluxInv, logFluxConv]
  have h25 : (2.5 : ℝ) ≠ 0 := by norm_num
  rw [mul_div_cancel_left₀ _ h25]
  rw [← Real.logb_div (ne_of_gt hf) (by norm_num)]
  rw [Real.rpow_logb (by norm_num) (by norm_num) (div_pos hf (by norm_num))]
  field_simp

/-- C5 witness: the zero-point flux 3631 round-trips. -/
theorem C5_logflux_roundtrip_witness :
    (0 : ℝ) < 3631 ∧ logFluxInv (logFluxConv 3631) = 3631 :=
  ⟨by norm_num, C5_logflux_roundtrip 3631 (by norm_num)⟩
